import Mathlib

/-!
# Verification of the SEO-analyzer page-analysis pipeline

This file gives a shallow embedding, in Lean 4, of the deterministic core of
`src/server.js` (an Express backend auditing web pages): the syllable/readability
computation of `/api/wordcount`, the keyword-frequency extraction of
`/api/keywords`, the SERP resolver `fetchSERP`, the reference resolution,
deduplication and probe classification of `/api/broken-links`, the orchestration
of `/api/all`, and the content scoring of `/api/content/score`.  Network fetches
and HTML extraction (axios, cheerio) are external effects; they enter the model
as explicit inputs (the extracted text, the discovered reference strings, the
outcome of each probe).  JavaScript numbers are modelled as exact rationals,
`Math.round` as `⌊x + 1/2⌋`.
-/

namespace SeoAnalyzer

/-- JavaScript `Math.round`: round half toward positive infinity.  Used on the
specification side of statements; the executable definitions below carry out
the same computation in cleared-denominator integer arithmetic. -/
def jsRound (q : ℚ) : ℤ := ⌊q + 1/2⌋

/-- The helper `clamp(v, a, b)` from server.js: `Math.max(a, Math.min(b, v))`. -/
def clampI (v a b : ℤ) : ℤ := max a (min b v)

/-- The rounding `Math.round(206.835 - 1.015*(w/s1) - 84.6*(y/w1))` with `s1 = max s 1` and
`w1 = max w 1`, the Flesch rounding shared by `/api/wordcount` and
`/api/content/score`.  Computed exactly over ℤ: the rounded quantity plus `1/2`
equals `(413670*s1*w1 + 1000*s1*w1 - 2030*w*w1 - 169200*y*s1) / (2000*s1*w1)`,
and `Int./` is `Int.ediv`, which is floor division for a positive divisor.
`fleschRound_eq_jsRound` below proves this equal to the rational formula. -/
def fleschRound (w s y : ℕ) : ℤ :=
  let s1 := max s 1
  let w1 := max w 1
  let num : ℤ := 413670 * (s1 * w1 : ℕ) + 1000 * (s1 * w1 : ℕ)
    - 2030 * (w * w1 : ℕ) - 169200 * (y * s1 : ℕ)
  num / (2000 * (s1 * w1) : ℕ)

/-- The vowel class `[aeiouy]` used by `countSyllables`. -/
def isVowelY (c : Char) : Bool := c ∈ ['a', 'e', 'i', 'o', 'u', 'y']

/-- The character class `[^laeiouy]` of the suffix-stripping regex. -/
def notLVowelY (c : Char) : Bool := !(c ∈ ['l', 'a', 'e', 'i', 'o', 'u', 'y'])

/-- The suffix strip `word.replace(/(?:[^laeiouy]es|ed|[^laeiouy]e)$/, '')` of
`countSyllables`.  The regex is anchored at the end; the leftmost (hence
longest-starting) match wins, so a 3-character `[^laeiouy]es` ending is tried
before the 2-character `ed` and `[^laeiouy]e` endings, and a matched leading
`[^laeiouy]` character is removed together with the `es`/`e`. -/
def stripEnding (w : List Char) : List Char :=
  match w.reverse with
  | 's' :: 'e' :: c :: rest => if notLVowelY c then rest.reverse else w
  | 'd' :: 'e' :: rest => rest.reverse
  | 'e' :: c :: rest => if notLVowelY c then rest.reverse else w
  | _ => w

/-- The number of matches of `/[aeiouy]{1,2}/g`: a greedy left-to-right scan
counting non-overlapping vowel clusters of one or two characters. -/
def clusterCount : List Char → Nat
  | [] => 0
  | c :: rest =>
    if isVowelY c then
      match rest with
      | [] => 1
      | d :: rest2 => if isVowelY d then 1 + clusterCount rest2 else 1 + clusterCount (d :: rest2)
    else clusterCount rest

/-- The function `countSyllables` from server.js, on the character list of the word:
lowercase; `0` for the empty word; `1` for words of length at most 3; otherwise
the number of vowel clusters left after the suffix strip, with `1` substituted
when no cluster is found (`matches ? matches.length : 1`). -/
def countSyllablesL (word : List Char) : Nat :=
  let w := word.map Char.toLower
  if w = [] then 0
  else if w.length ≤ 3 then 1
  else
    let m := clusterCount (stripEnding w)
    if m = 0 then 1 else m

/-- The function `countSyllables(word)` from server.js on a string. -/
def countSyllables (word : String) : Nat := countSyllablesL word.toList

/-- The syllable rule as the specification words it (claim C9): strip a
trailing `-es` / `-ed` / silent `-e` only when it follows a consonant (a
character outside `{a,e,i,o,u,y}`), the consonant itself being kept; then count
vowel clusters as in the code.  Written from the spec sentence, to be compared
with `countSyllables` above. -/
def specRuleSyllables (word : String) : Nat :=
  let w := word.toList.map Char.toLower
  let specConsonant : Char → Bool := fun c => !(c ∈ ['a', 'e', 'i', 'o', 'u', 'y'])
  if w = [] then 0
  else if w.length ≤ 3 then 1
  else
    let stripped :=
      match w.reverse with
      | 's' :: 'e' :: c :: rest => if specConsonant c then (c :: rest).reverse else w
      | 'd' :: 'e' :: c :: rest => if specConsonant c then (c :: rest).reverse else w
      | 'e' :: c :: rest => if specConsonant c then (c :: rest).reverse else w
      | _ => w
    let m := clusterCount stripped
    if m = 0 then 1 else m

/-!
## Tokenization

Both `/api/wordcount`, `/api/keywords` and `/api/content/score` split text with
JavaScript `text.split(/\s+/)` (resp. `/[.!?]+/`) and then drop the fragments
that are empty (or whitespace-only).  Splitting on a *run* of separators and
then dropping empty fragments gives the same surviving fragments as splitting
at *every* separator character and dropping empty fragments, which is how
`fragments` models it.
-/

/-- Split a character list at every character satisfying `p`; fragments may be
empty, as with JavaScript `String.prototype.split`. -/
def fragments (p : Char → Bool) : List Char → List (List Char)
  | [] => [[]]
  | c :: rest =>
    if p c then [] :: fragments p rest
    else
      match fragments p rest with
      | f :: fs => (c :: f) :: fs
      | [] => [[c]]

/-- The sentence separator class `[.!?]`. -/
def isSentenceSep (c : Char) : Bool := c ∈ ['.', '!', '?']

/-- The word split `text.split(/\s+/).filter(w => w.trim())` of `/api/wordcount` (for
whitespace-delimited tokens `w.trim()` is truthy exactly when `w` is
nonempty). -/
def wcWords (text : String) : List (List Char) :=
  (fragments (fun c => c.isWhitespace) text.toList).filter (· ≠ [])

/-- The sentence split `text.split(/[.!?]+/).filter(s => s.trim())` of `/api/wordcount`: keep the
fragments containing at least one non-whitespace character. -/
def wcSentences (text : String) : List (List Char) :=
  (fragments isSentenceSep text.toList).filter (fun s => s.any (fun c => !c.isWhitespace))

/-- The readability formula of `/api/wordcount` on a `(words, sentences,
syllables)` triple:
`clamp(Math.round(206.835 - 1.015*(words/max(sentences,1)) - 84.6*(syllables/max(words,1))), 0, 100)`. -/
def readabilityTriple (w s y : Nat) : ℤ :=
  clampI (fleschRound w s y) 0 100

/-- The syllable total of `/api/wordcount`: `for (const w of words.slice(0,500))
syllables += countSyllables(w)`. -/
def wcSyllables (text : String) : Nat :=
  (((wcWords text).take 500).map countSyllablesL).sum

/-- The `flesch_reading_score` field computed by `/api/wordcount` for a given
extracted document text. -/
def wordcountScore (text : String) : ℤ :=
  readabilityTriple (wcWords text).length (wcSentences text).length (wcSyllables text)

/-!
## `/api/content/score`

`text` is the request's text (or the text extracted from its HTML).  The
keyword-occurrence count `(text.match(new RegExp(keyword,'gi')) || []).length`
compiles the user-supplied keyword as a regular expression; that external
engine is abstracted: the model takes whether a keyword was supplied and the
match count it produced as inputs.
-/

/-- The word split `text.split(/\s+/).filter(Boolean)` of `/api/content/score`. -/
def contentWords (text : String) : List (List Char) :=
  (fragments (fun c => c.isWhitespace) text.toList).filter (· ≠ [])

/-- The sentence count `text.split(/[.!?]+/).filter(Boolean).length || 1` of `/api/content/score`
(note: unlike `/api/wordcount` the fragments are not trimmed, and the `|| 1`
floor is applied here). -/
def contentSentences (text : String) : Nat :=
  max ((fragments isSentenceSep text.toList).filter (· ≠ [])).length 1

/-- The syllable loop of `/api/content/score` over the first 500 words. -/
def contentSyllables (text : String) : Nat :=
  (((contentWords text).take 500).map countSyllablesL).sum

/-- The unclamped `flesch` field returned by `/api/content/score`. -/
def contentFlesch (text : String) : ℤ :=
  fleschRound (contentWords text).length (contentSentences text) (contentSyllables text)

/-- Whether `Number(((kc / Math.max(len,1)) * 100).toFixed(3))` is positive:
`toFixed(3)` rounds half-up to three decimals, so the value is
`Math.round(100000 * kc / max(len,1)) / 1000`, positive exactly when the
rounded numerator is.  As with `fleschRound`, the rounding is computed by
integer floor division. -/
def densityPos (kc len : Nat) : Bool :=
  0 < (((200000 * kc + max len 1 : ℕ) : ℤ) / ((2 * max len 1 : ℕ) : ℤ))

/-- The `score` field of `/api/content/score`:
`clamp(Math.round((flesch/100)*40 + Math.min(30, len/10) + (density>0?20:0)), 1, 100)`,
with the round again computed over ℤ (`(flesch/100)*40 + min(30,len/10) + bonus
+ 1/2` equals `(40*flesch + min(3000,10*len) + 100*bonus + 50) / 100`). -/
def contentScoreVal (text : String) (hasKeyword : Bool) (kc : Nat) : ℤ :=
  let len := (contentWords text).length
  let bonus := hasKeyword && densityPos kc len
  clampI ((40 * contentFlesch text + min 3000 (10 * (len : ℤ))
    + (if bonus then 2000 else 0) + 50) / 100) 1 100

/-!
## The SERP resolver `fetchSERP`

For each provider URL the code fetches the page and runs two families of
selector extractions (Bing's `li.b_algo`, then DuckDuckGo's `.result__body`)
over the returned markup, keeping the candidates with nonempty title and link
and numbering each kept result `results.length + 1` as it is pushed.  A thrown
fetch is caught and means "try the next provider".  The markup parsing is
external (cheerio); a provider enters the model as `none` (fetch threw) or as
the two lists of extracted `(title, link, snippet)` candidates.
-/

/-- One search-result entry as produced by `fetchSERP`. -/
structure SerpEntry where
  position : Nat
  title : String
  link : String
  snippet : String
deriving DecidableEq, Repr

/-- The `(title, link, snippet)` triples extracted by the two selector families
of one provider's markup. -/
structure ProviderDoc where
  bing : List (String × String × String)
  ddg : List (String × String × String)
deriving DecidableEq, Repr

/-- The push loop `if (title && link) results.push({ position: results.length
  + 1, title, link, snippet })` over a candidate list. -/
def pushResults (cands : List (String × String × String)) (acc : List SerpEntry) :
    List SerpEntry :=
  cands.foldl
    (fun acc c =>
      if c.1 ≠ "" ∧ c.2.1 ≠ "" then acc ++ [⟨acc.length + 1, c.1, c.2.1, c.2.2⟩] else acc)
    acc

/-- What one provider's iteration of the `fetchSERP` loop returns: the Bing
results if any (sliced to 10), else the DuckDuckGo results pushed into the same
(empty) array (sliced to 10); `[]` means "fall through to the next provider".
A failed fetch (`none`) also falls through. -/
def providerAttempt : Option ProviderDoc → List SerpEntry
  | none => []
  | some doc =>
    let r1 := pushResults doc.bing []
    if r1 ≠ [] then r1.take 10 else (pushResults doc.ddg r1).take 10

/-- The slug `keyword.replace(/\s+/g,'-')`: each maximal whitespace run becomes one
hyphen. -/
def slugify : List Char → List Char
  | [] => []
  | c :: rest =>
    if c.isWhitespace then
      match rest with
      | d :: rest2 => if d.isWhitespace then slugify (d :: rest2) else '-' :: slugify (d :: rest2)
      | [] => ['-']
    else c :: slugify rest

/-- The simulated fallback SERP of `fetchSERP`: exactly ten deterministic
entries derived from the keyword. -/
def simulatedSERP (keyword : String) : List SerpEntry :=
  (List.range 10).map fun i =>
    { position := i + 1
      title := keyword ++ " - Example result " ++ toString (i + 1)
      link := "https://example.com/" ++ String.mk (slugify keyword.toList) ++ "/page"
        ++ toString (i + 1)
      snippet := "This is a simulated snippet for " ++ keyword ++ " result "
        ++ toString (i + 1) ++ "." }

/-- The resolver `fetchSERP(keyword)`, over the outcomes of the provider fetches: the first
provider whose extraction is nonempty wins; if every provider throws or
extracts nothing, the simulated fallback is returned.  Per-provider failures
(`none`) are swallowed by the `catch`, never surfaced. -/
def fetchSERP (keyword : String) : List (Option ProviderDoc) → List SerpEntry
  | [] => simulatedSERP keyword
  | p :: rest =>
    let r := providerAttempt p
    if r = [] then fetchSERP keyword rest else r

/-!
## The full-audit orchestrator `/api/all`

The handler fires twelve local HTTP calls through `Promise.allSettled`; each is
guarded by `.catch(e => ({data:{error:'localcall'}}))`, so a settled call is
either fulfilled with a `data` value or (defensively) not.  Each check
endpoint itself answers HTTP 200 with either its success payload (which
includes `status:'success'`) or `{error:..., details:...}` when it caught a
failure.  Payloads are modelled as JSON objects in field order. -/

/-- A JSON object, as an ordered field list. -/
abbrev Payload := List (String × String)

/-- A settled entry of the `Promise.allSettled` array, from the orchestrator's
point of view. -/
inductive SettledCall where
  | fulfilledData (data : Payload)
  | fulfilledNoData
  | rejected
deriving DecidableEq, Repr

/-- One check's own outcome: the endpoint's try-branch payload, or its
catch-branch error message and details. -/
inductive CheckOutcome where
  | success (payload : Payload)
  | failure (msg details : String)
deriving DecidableEq, Repr

/-- The JSON body a check endpoint answers with: the payload plus its
`status:'success'` field, or `{error: msg, details: details}`. -/
def checkJson : CheckOutcome → Payload
  | .success p => p ++ [("status", "success")]
  | .failure m d => [("error", m), ("details", d)]

/-- The per-check entry crafted by `/api/all`:
`if (calls[i].status === 'fulfilled' && calls[i].value && calls[i].value.data)
resObj[keys[i]] = calls[i].value.data; else resObj[keys[i]] = { error: 'Check failed' }`. -/
def settledEntry : SettledCall → Payload
  | .fulfilledData d => d
  | _ => [("error", "Check failed")]

/-- The twelve check names of the `/api/all` report, in order. -/
def auditKeys : List String :=
  ["seo", "meta", "alts", "headings", "wordcount", "keywords", "links-report",
   "broken-links", "sitemap", "robots", "pagespeed", "tech"]

/-- The `/api/all` report object: check name `keys[i]` mapped to the entry
crafted from `calls[i]`. -/
def runFullAudit (calls : List SettledCall) : List (String × Payload) :=
  auditKeys.zip (calls.map settledEntry)

/-- The spec's per-check entry (claim C4): a successful check's entry is its
payload with its own `status` field stripped, and an incomplete check is
substituted by `{error: "<Check> Failed"}` naming the check.  Written from the
spec sentence, to be compared with `settledEntry` above. -/
def specAuditEntry (checkName : String) : SettledCall → Payload
  | .fulfilledData d => d.filter (fun f => f.1 ≠ "status")
  | _ => [("error", checkName ++ " Failed")]

/-- A sample audit run in which the keyword-extraction check (index 5) threw
and every other check succeeded. -/
def sampleOutcomes : List CheckOutcome :=
  [.success [("title", "T")], .success [("metas", "{}")], .success [("total", "0")],
   .success [("h1", "H")], .success [("words", "3")],
   .failure "keywords failed" "boom", .success [("internal", "[]")],
   .success [("totalChecked", "0")], .success [("total", "0")],
   .success [("robots", "ok")], .success [("load_ms", "1")], .success [("cms", "none")]]

/-!
## `/api/broken-links`: reference resolution, deduplication, probing

For each discovered reference the handler runs
```
let abs = href;
if (abs.startsWith('//')) abs = 'http:' + abs;
if (!abs.startsWith('http')) abs = new URL(abs, url).href;
links.push(abs);
```
inside a synchronous cheerio `.each` loop whose only exception handler is the
route-level `catch` answering `{error:'Failed to check', ...}` — a reference on
which `new URL` throws therefore aborts the whole check.  `new URL` is the
WHATWG URL constructor; `jsUrlResolve` models it on the fragment of inputs this
development exercises (see its doc comment).
-/

/-- A scheme per WHATWG: a letter followed by letters, digits, `+`, `-` or `.`,
then `:`.  Returns the scheme and the remainder after the colon. -/
def schemeOf : List Char → Option (List Char × List Char)
  | [] => none
  | c :: rest =>
    if c.isAlpha then
      let body := c :: rest.takeWhile fun d => d.isAlphanum ∨ d = '+' ∨ d = '-' ∨ d = '.'
      match rest.drop (body.length - 1) with
      | ':' :: tail => some (body, tail)
      | _ => none
    else none

/-- The WHATWG special schemes, which require an authority with a valid host. -/
def specialSchemes : List (List Char) :=
  ["http".toList, "https".toList, "ws".toList, "wss".toList, "ftp".toList, "file".toList]

/-- Models `new URL(ref, base).href` on the fragment of inputs the claims
exercise.  A reference with a non-special scheme (`javascript:`, `data:`, ...)
parses to itself; a special-scheme reference needs `//` and a host free of the
forbidden host code points `[`, `]` (bracketed IPv6 hosts are outside the
modelled fragment) and nonempty unless the scheme is `file` — otherwise the
constructor throws (`none`).  A scheme-less reference is resolved against the
base: `/`-rooted paths against the base origin, the rest against the base
directory (dot-segment normalization and query/fragment splitting are outside
the modelled fragment, which no claim exercises). -/
def jsUrlResolve (ref base : List Char) : Option (List Char) :=
  match schemeOf ref with
  | some (s, rest) =>
    if s.map Char.toLower ∈ specialSchemes then
      if "//".toList.isPrefixOf rest then
        let auth := (rest.drop 2).takeWhile fun c => ¬(c = '/' ∨ c = '?' ∨ c = '#')
        if auth.any (fun c => c = '[' ∨ c = ']') then none
        else if auth = [] ∧ s.map Char.toLower ≠ "file".toList then none
        else some ref
      else none
    else some ref
  | none =>
    match schemeOf base with
    | some (bs, brest) =>
      if "//".toList.isPrefixOf brest then
        let auth := (brest.drop 2).takeWhile fun c => ¬(c = '/' ∨ c = '?' ∨ c = '#')
        let origin := bs ++ "://".toList ++ auth
        let path := (brest.drop 2).drop auth.length
        if "/".toList.isPrefixOf ref then some (origin ++ ref)
        else
          let dir := (path.reverse.dropWhile (· ≠ '/')).reverse
          some (origin ++ (if dir = [] then "/".toList else dir) ++ ref)
      else none
    | none => none

/-- The per-reference step of the collection loop (the `if (!href) return;`
guard is handled by the caller): protocol-relative promotion, `http` prefix
passthrough, otherwise `new URL(abs, url).href`. -/
def resolveRef (href base : String) : Option String :=
  let abs := if "//".toList.isPrefixOf href.toList then "http:" ++ href else href
  if "http".toList.isPrefixOf abs.toList then some abs
  else (jsUrlResolve abs.toList base.toList).map String.mk

/-- The collection loop over the discovered reference strings: empty
references are skipped, a reference on which `new URL` throws makes the whole
handler answer `{error: 'Failed to check'}` (no partial list survives). -/
def collectLinks (base : String) : List String → Except String (List String)
  | [] => .ok []
  | h :: t =>
    if h = "" then collectLinks base t
    else
      match resolveRef h base with
      | none => .error "Failed to check"
      | some u => (collectLinks base t).map (u :: ·)

/-- Insertion into a JavaScript `Set`: an element already seen is skipped. -/
def jsSetDedupAux (seen : List String) : List String → List String
  | [] => []
  | x :: xs => if x ∈ seen then jsSetDedupAux seen xs else x :: jsSetDedupAux (seen ++ [x]) xs

/-- The deduplication `[...new Set(links)]`: deduplication keeping first occurrences in
insertion order. -/
def jsSetDedup (l : List String) : List String := jsSetDedupAux [] l

/-- The cap `links = [...new Set(links)].slice(0, 40)`: the deduplicated candidate set
capped at 40. -/
def candidateLinks (base : String) (hrefs : List String) : Except String (List String) :=
  (collectLinks base hrefs).map fun ls => (jsSetDedup ls).take 40

/-- How one `safeHead` probe settles: resolved (axios accepted the status),
rejected with a response carrying a status code, or rejected with no response
(timeout, connection failure, unsupported protocol). -/
inductive ProbeOutcome where
  | ok
  | httpError (status : Nat)
  | netError
deriving DecidableEq, Repr

/-- The status recorded for a broken link: the numeric response status, or the
`'Timeout/Err'` marker. -/
inductive BrokenStatus where
  | code (status : Nat)
  | timeoutErr
deriving DecidableEq, Repr

/-- The probe `catch` of `/api/broken-links`: a resolved probe contributes
nothing; `if (e.response && e.response.status >= 400)` records the numeric
status, any other rejection records `'Timeout/Err'`. -/
def classifyProbe : ProbeOutcome → Option BrokenStatus
  | .ok => none
  | .httpError s => some (if 400 ≤ s then .code s else .timeoutErr)
  | .netError => some .timeoutErr

/-- The `broken` array accumulated over the settled probes (each link's
callback catches its own failure, so no probe aborts the others). -/
def brokenList (probes : List (String × ProbeOutcome)) : List (String × BrokenStatus) :=
  probes.filterMap fun p => (classifyProbe p.2).map fun st => (p.1, st)

/-- The `/api/broken-links` response body: `totalChecked` is the length of the
deduplicated capped candidate list, `broken` the classified probe failures. -/
structure BrokenLinksReport where
  totalChecked : Nat
  broken : List (String × BrokenStatus)
deriving DecidableEq, Repr

/-- The whole `/api/broken-links` computation, given the discovered reference
strings and the outcome of each probe. -/
def brokenLinksCheck (base : String) (hrefs : List String)
    (probe : String → ProbeOutcome) : Except String BrokenLinksReport :=
  (candidateLinks base hrefs).map fun ls =>
    ⟨ls.length, brokenList (ls.map fun l => (l, probe l))⟩

/-!
## `/api/keywords`: frequency extraction

```
const text = $('body').text().replace(/\s+/g,' ').toLowerCase();
const words = text.split(/\s+/).map(w=>w.replace(/[^a-z0-9]/g,'')).filter(w=>w && w.length>3);
const freq = {}; for (const w of words) freq[w] = (freq[w]||0)+1;
const sorted = Object.entries(freq).sort((a,b)=>b[1]-a[1]).slice(0,50);
```
`freq` is a JavaScript object, so `Object.entries` enumerates array-index keys
(canonical numeric strings below 2^32 - 1) first in ascending numeric order,
then the remaining keys in insertion order; `Array.prototype.sort` is stable.
-/

/-- The character class `[a-z0-9]` kept by the token strip. -/
def keepAlnum (c : Char) : Bool := ('a' ≤ c ∧ c ≤ 'z') ∨ ('0' ≤ c ∧ c ≤ '9')

/-- The token pipeline of `/api/keywords`: lowercase the text, split on
whitespace, strip each token to `[a-z0-9]`, keep the nonempty tokens longer
than 3 characters. -/
def keywordTokens (text : String) : List (List Char) :=
  (((fragments (fun c => c.isWhitespace) (text.toList.map Char.toLower)).map
    (·.filter keepAlnum)).filter fun w => w ≠ [] ∧ 3 < w.length)

/-- The tally step `freq[w] = (freq[w]||0)+1` on an insertion-ordered association list. -/
def bump : List (List Char × Nat) → List Char → List (List Char × Nat)
  | [], w => [(w, 1)]
  | (k, n) :: rest, w => if k = w then (k, n + 1) :: rest else (k, n) :: bump rest w

/-- The frequency table, in key insertion order. -/
def freqTable (ws : List (List Char)) : List (List Char × Nat) :=
  ws.foldl bump []

/-- Whether a key is a JavaScript array index: a canonical decimal numeral
below 2^32 - 1. -/
def isArrayIndex (w : List Char) : Bool :=
  w ≠ [] ∧ w.all (·.isDigit) ∧ (w = ['0'] ∨ w.headD ' ' ≠ '0') ∧
    w.foldl (fun a c => a * 10 + (c.toNat - 48)) 0 < 4294967295

/-- The numeric value of a digit string. -/
def numValue (w : List Char) : Nat :=
  w.foldl (fun a c => a * 10 + (c.toNat - 48)) 0

/-- Insertion into a list sorted ascending by `numValue` of the key. -/
def insertAscNum (x : List Char × Nat) : List (List Char × Nat) → List (List Char × Nat)
  | [] => [x]
  | y :: ys => if numValue y.1 ≤ numValue x.1 then y :: insertAscNum x ys else x :: y :: ys

/-- The enumeration `Object.entries(freq)`: array-index keys first in ascending numeric order,
then the other keys in insertion order. -/
def jsEntries (tbl : List (List Char × Nat)) : List (List Char × Nat) :=
  (tbl.filter fun e => isArrayIndex e.1).foldl (fun acc x => insertAscNum x acc) []
    ++ tbl.filter fun e => ¬isArrayIndex e.1

/-- One step of a stable descending sort by count: insert after every entry
with a count ≥ the new entry's, modelling stable
`sort((a,b) => b[1]-a[1])`. -/
def insertByCount (x : List Char × Nat) : List (List Char × Nat) → List (List Char × Nat)
  | [] => [x]
  | y :: ys => if y.2 < x.2 then x :: y :: ys else y :: insertByCount x ys

/-- Stable sort by descending count: entries inserted left to right, each
placed after all entries of count ≥ its own. -/
def sortByCountDesc (l : List (List Char × Nat)) : List (List Char × Nat) :=
  l.foldl (fun acc x => insertByCount x acc) []

/-- The `keywords` array answered by `/api/keywords` for a given extracted
body text: the frequency entries sorted by descending count (stably over the
object's enumeration order) and sliced to 50. -/
def jsKeywords (text : String) : List (String × Nat) :=
  ((sortByCountDesc (jsEntries (freqTable (keywordTokens text)))).take 50).map
    fun e => (String.mk e.1, e.2)

/-!
# Supporting lemmas
-/

/-- The clamp `clampI v a b` lies between its bounds whenever `a ≤ b`. -/
theorem clampI_mem (v a b : ℤ) (h : a ≤ b) : a ≤ clampI v a b ∧ clampI v a b ≤ b :=
  ⟨le_max_left a _, max_le h (min_le_left b v)⟩

/-- The integer computation of `fleschRound` agrees with the rational Flesch
formula rounded JavaScript-style. -/
theorem fleschRound_eq_jsRound (w s y : ℕ) :
    fleschRound w s y =
      jsRound (206.835 - 1.015 * ((w : ℚ) / max (s : ℚ) 1)
        - 84.6 * ((y : ℚ) / max (w : ℚ) 1)) := by
  have hs1 : ((max s 1 : ℕ) : ℚ) = max (s : ℚ) 1 := by
    push_cast [Nat.cast_max]
    norm_num
  have hw1 : ((max w 1 : ℕ) : ℚ) = max (w : ℚ) 1 := by
    push_cast [Nat.cast_max]
    norm_num
  have hs1pos : (0 : ℚ) < ((max s 1 : ℕ) : ℚ) := by
    exact_mod_cast Nat.lt_of_lt_of_le Nat.zero_lt_one (le_max_right s 1)
  have hw1pos : (0 : ℚ) < ((max w 1 : ℕ) : ℚ) := by
    exact_mod_cast Nat.lt_of_lt_of_le Nat.zero_lt_one (le_max_right w 1)
  rw [fleschRound, jsRound, ← Rat.floor_intCast_div_natCast]
  congr 1
  rw [show (206.835 : ℚ) = 206835 / 1000 by norm_num,
    show (1.015 : ℚ) = 1015 / 1000 by norm_num, show (84.6 : ℚ) = 846 / 10 by norm_num,
    ← hs1, ← hw1]
  field_simp
  ring

/-- With no words (hence no syllables counted) the rounded Flesch value is
`round(206.835) = 207`, whatever the sentence count. -/
theorem fleschRound_zero_words (s : ℕ) : fleschRound 0 s 0 = 207 := by
  rw [fleschRound_eq_jsRound, jsRound]
  push_cast
  rw [zero_div, zero_div]
  rw [show (206.835 : ℚ) - 1.015 * 0 - 84.6 * 0 + 1 / 2 = 207 + 335 / 1000 by norm_num]
  rw [Int.floor_eq_iff]
  constructor <;> norm_num

/-!
# The claims
-/

/-- Claim C3: For every document text the `/api/wordcount` score equals
`round(206.835 - 1.015*(words/sentences) - 84.6*(syllables/words))` with the
sentence and word denominators floored at 1 and the syllable total summing
`countSyllables` over at most the first 500 words, clamped to `[0,100]`; the
clamped score lies in `[0,100]` for every non-negative `(words, sentences,
syllables)` triple; and the degenerate zero-word case yields the clamped
boundary value 100 (no NaN, no exception). -/
theorem claim_C3_readability :
    (∀ text : String,
      wordcountScore text =
        clampI (jsRound (206.835
          - 1.015 * (((wcWords text).length : ℚ) / max ((wcSentences text).length : ℚ) 1)
          - 84.6 * ((wcSyllables text : ℚ) / max ((wcWords text).length : ℚ) 1))) 0 100
      ∧ wcSyllables text = (((wcWords text).take 500).map countSyllablesL).sum)
    ∧ (∀ w s y : ℕ, 0 ≤ readabilityTriple w s y ∧ readabilityTriple w s y ≤ 100)
    ∧ (∀ text : String, wcWords text = [] → wordcountScore text = 100) := by
  refine ⟨fun text => ⟨?_, rfl⟩,
    fun w s y => clampI_mem _ 0 100 (by norm_num),
    fun text h => ?_⟩
  · rw [wordcountScore, readabilityTriple, fleschRound_eq_jsRound]
  · have hy : wcSyllables text = 0 := by
      rw [wcSyllables, h]
      rfl
    rw [wordcountScore, h, hy]
    rw [List.length_nil, readabilityTriple, fleschRound_zero_words]
    decide

/-- Witness for C3: the empty document has no words and scores the clamped
boundary value 100. -/
theorem claim_C3_readability_witness : wcWords "" = [] ∧ wordcountScore "" = 100 :=
  ⟨by decide, claim_C3_readability.2.2 "" (by decide)⟩

/-- The cluster count of a nonempty word's strip, with 1 substituted for 0, as
a `max`. -/
theorem ite_zero_eq_max (m : Nat) : (if m = 0 then 1 else m) = max 1 m := by
  cases m <;> simp [Nat.max_def]

/-- The value of `countSyllablesL` on a nonempty short word. -/
theorem countSyllablesL_short (l : List Char) (h : l ≠ []) (hlen : l.length ≤ 3) :
    countSyllablesL l = 1 := by
  rw [countSyllablesL]
  rw [if_neg (by simpa using h), if_pos (by simpa using hlen)]

/-- The count `countSyllablesL` is at least 1 on a nonempty word. -/
theorem countSyllablesL_pos (l : List Char) (h : l ≠ []) : 1 ≤ countSyllablesL l := by
  rw [countSyllablesL]
  rw [if_neg (by simpa using h)]
  split
  · exact le_refl 1
  · rw [ite_zero_eq_max]
    exact le_max_left 1 _

/-- A nonempty string has a nonempty character list. -/
theorem toList_ne_nil (w : String) (h : w ≠ "") : w.toList ≠ [] := by
  obtain ⟨l⟩ := w
  simpa [String.ext_iff] using h

/-- Claim C9 counterexample: The code's suffix strip differs from the claim's
"silent e or es or ed, after a consonant" rule: the code strips `ed` even after a
vowel (`wooed` counts 1 syllable, the claimed rule counts 2) and refuses to
strip after an `l` (`able` counts 2, the claimed rule counts 1). -/
theorem claim_C9_counterexample :
    countSyllables "wooed" = 1 ∧ specRuleSyllables "wooed" = 2
      ∧ countSyllables "able" = 2 ∧ specRuleSyllables "able" = 1 := by
  decide

/-- Claim C9 amended: the function `countSyllables` lowercases its input and returns 0 on
the empty word, 1 for any nonempty word of length ≤ 3, and otherwise the
number of greedy non-overlapping one-or-two-character vowel clusters (from
`{a,e,i,o,u,y}`) remaining after the suffix strip, with 1 substituted when no
cluster is found — where the strip removes a trailing `ed` unconditionally,
and a trailing `es`/`e` together with its immediately preceding character only
when that character is outside `{l,a,e,i,o,u,y}`; every nonempty word counts at
least one syllable, and `countSyllables("cat") = 1`,
`countSyllables("beautiful") = 4 ≥ 2`, `countSyllables("") = 0`. -/
theorem claim_C9_syllables :
    countSyllables "" = 0
    ∧ (∀ w : String, w ≠ "" → 1 ≤ countSyllables w)
    ∧ (∀ w : String, w ≠ "" → w.toList.length ≤ 3 → countSyllables w = 1)
    ∧ (∀ w : String, 4 ≤ w.toList.length →
        countSyllables w = max 1 (clusterCount (stripEnding (w.toList.map Char.toLower))))
    ∧ countSyllables "cat" = 1 ∧ countSyllables "beautiful" = 4
    ∧ countSyllables "wooed" = 1 ∧ countSyllables "able" = 2 := by
  refine ⟨by decide, ?_, ?_, ?_, by decide, by decide, by decide, by decide⟩
  · intro w hw
    exact countSyllablesL_pos _ (by simpa using toList_ne_nil w hw)
  · intro w hw hlen
    exact countSyllablesL_short _ (toList_ne_nil w hw) hlen
  · intro w hlen
    have hne : w.toList.map Char.toLower ≠ [] := by
      intro h
      have h0 := congrArg List.length h
      rw [List.length_map] at h0
      simp only [List.length_nil] at h0
      omega
    have hgt : ¬(w.toList.map Char.toLower).length ≤ 3 := by
      rw [List.length_map]
      omega
    rw [countSyllables, countSyllablesL]
    rw [if_neg hne, if_neg hgt]
    exact ite_zero_eq_max _

/-- Witness for C9: `cat` is nonempty, short, and counts one syllable. -/
theorem claim_C9_syllables_witness :
    ("cat" : String) ≠ "" ∧ "cat".toList.length ≤ 3 ∧ countSyllables "cat" = 1 :=
  ⟨by decide, by decide, claim_C9_syllables.2.2.1 "cat" (by decide) (by decide)⟩

/-- Claim C10: the endpoint `/api/content/score` clamps its composite `score` to `[1,100]`
for every input text, keyword presence and keyword-match count, but the
`flesch` field it returns is unclamped: the one-word text `"."` yields flesch
121 > 100, and the single long vowel-clustered word `"aeaeaeae"` yields flesch
-133 < 0. -/
theorem claim_C10_content_score :
    (∀ (text : String) (hk : Bool) (kc : ℕ),
      1 ≤ contentScoreVal text hk kc ∧ contentScoreVal text hk kc ≤ 100)
    ∧ contentFlesch "." = 121 ∧ (100 : ℤ) < contentFlesch "."
    ∧ contentFlesch "aeaeaeae" = -133 ∧ contentFlesch "aeaeaeae" < 0 := by
  refine ⟨fun text hk kc => ?_, by decide, by decide, by decide, by decide⟩
  rw [contentScoreVal]
  exact clampI_mem _ 1 100 (by norm_num)

/-- Positions stay `1..n` when the `fetchSERP` push loop extends an array
already numbered `1..n`: each kept candidate is pushed with position
`results.length + 1`. -/
theorem pushResults_position (cands : List (String × String × String)) :
    ∀ acc : List SerpEntry,
      (∀ i (hi : i < acc.length), (acc[i]).position = i + 1) →
      ∀ i (hi : i < (pushResults cands acc).length),
        ((pushResults cands acc)[i]).position = i + 1 := by
  induction cands with
  | nil => exact fun acc h => h
  | cons c cs ih =>
    intro acc h
    rw [pushResults, List.foldl_cons]
    refine ih _ ?_
    by_cases hc : c.1 ≠ "" ∧ c.2.1 ≠ ""
    · rw [if_pos hc]
      intro i hi
      rw [List.length_append, List.length_cons, List.length_nil] at hi
      rcases Nat.lt_or_ge i acc.length with hlt | hge
      · rw [List.getElem_append_left hlt]
        exact h i hlt
      · have hieq : i = acc.length := by omega
        rw [List.getElem_concat_length _ _ _ hieq]
        rw [hieq]
    · rw [if_neg hc]
      exact h
  -- the fold over the remaining candidates starts from the extended array

/-- Taking a prefix preserves the `1..n` numbering. -/
theorem take_position (l : List SerpEntry)
    (h : ∀ i (hi : i < l.length), (l[i]).position = i + 1) (n : ℕ) :
    ∀ i (hi : i < (l.take n).length), ((l.take n)[i]).position = i + 1 := by
  intro i hi
  rw [List.getElem_take]
  exact h i (by rw [List.length_take] at hi; omega)

/-- Every provider attempt is numbered `1..n`. -/
theorem providerAttempt_position (p : Option ProviderDoc) :
    ∀ i (hi : i < (providerAttempt p).length), ((providerAttempt p)[i]).position = i + 1 := by
  match p with
  | none => intro i hi; simp [providerAttempt] at hi
  | some doc =>
    rw [providerAttempt]
    have h1 := pushResults_position doc.bing [] (by intro i hi; simp at hi)
    by_cases hr : pushResults doc.bing [] ≠ []
    · rw [if_pos hr]
      exact take_position _ h1 10
    · rw [if_neg hr]
      exact take_position _ (pushResults_position doc.ddg _ h1) 10

/-- A provider attempt returns at most ten entries. -/
theorem providerAttempt_length (p : Option ProviderDoc) :
    (providerAttempt p).length ≤ 10 := by
  match p with
  | none => simp [providerAttempt]
  | some doc =>
    rw [providerAttempt]
    by_cases hr : pushResults doc.bing [] ≠ []
    · rw [if_pos hr]
      exact List.length_take_le 10 _
    · rw [if_neg hr]
      exact List.length_take_le 10 _

/-- The simulated fallback has exactly ten entries. -/
theorem simulatedSERP_length (kw : String) : (simulatedSERP kw).length = 10 := by
  unfold simulatedSERP
  rw [List.length_map, List.length_range]

/-- The `i`-th simulated entry, written out. -/
theorem simulatedSERP_get (kw : String) (i : ℕ) (hi : i < (simulatedSERP kw).length) :
    (simulatedSERP kw)[i] =
      ⟨i + 1, kw ++ " - Example result " ++ toString (i + 1),
        "https://example.com/" ++ String.mk (slugify kw.toList) ++ "/page" ++ toString (i + 1),
        "This is a simulated snippet for " ++ kw ++ " result " ++ toString (i + 1) ++ "."⟩ := by
  unfold simulatedSERP at hi ⊢
  rw [List.getElem_map]
  rw [List.length_map] at hi
  rw [List.getElem_range]

/-- Claim C2: the resolver `fetchSERP` is total over every keyword and every outcome of the
provider fetches: it returns at most 10 entries whose positions are exactly
`1..N` contiguous from 1; per-provider failures (`none`) merely fall through;
and when every provider fails or extracts nothing the result is the
deterministic simulated set of exactly 10 entries whose title, link and
snippet are derived from the keyword. -/
theorem claim_C2_fetchSERP :
    (∀ (kw : String) (providers : List (Option ProviderDoc)),
      (fetchSERP kw providers).length ≤ 10
      ∧ (∀ i (hi : i < (fetchSERP kw providers).length),
          ((fetchSERP kw providers)[i]).position = i + 1)
      ∧ ((∀ p ∈ providers, providerAttempt p = []) →
          fetchSERP kw providers = simulatedSERP kw))
    ∧ (∀ kw : String, (simulatedSERP kw).length = 10
      ∧ ∀ i (hi : i < (simulatedSERP kw).length),
        (simulatedSERP kw)[i] =
          ⟨i + 1, kw ++ " - Example result " ++ toString (i + 1),
            "https://example.com/" ++ String.mk (slugify kw.toList) ++ "/page"
              ++ toString (i + 1),
            "This is a simulated snippet for " ++ kw ++ " result "
              ++ toString (i + 1) ++ "."⟩) := by
  constructor
  · intro kw providers
    induction providers with
    | nil =>
      have he : fetchSERP kw [] = simulatedSERP kw := rfl
      refine ⟨by rw [he, simulatedSERP_length], ?_, fun _ => rfl⟩
      intro i hi
      have hi2 : i < (simulatedSERP kw).length := he ▸ hi
      rw [List.getElem_of_eq he, simulatedSERP_get kw i hi2]
    | cons p rest ih =>
      by_cases hr : providerAttempt p = []
      · have hstep : fetchSERP kw (p :: rest) = fetchSERP kw rest := by
          rw [fetchSERP, hr, if_pos rfl]
        refine ⟨by rw [hstep]; exact ih.1, by rw [hstep]; exact ih.2.1, fun hall => ?_⟩
        rw [hstep]
        exact ih.2.2 fun q hq => hall q (List.mem_cons_of_mem p hq)
      · have hstep : fetchSERP kw (p :: rest) = providerAttempt p := by
          rw [fetchSERP, if_neg hr]
        refine ⟨by rw [hstep]; exact providerAttempt_length p,
          by rw [hstep]; exact providerAttempt_position p, fun hall => ?_⟩
        exact absurd (hall p (List.mem_cons_self p rest)) hr
  · intro kw
    exact ⟨simulatedSERP_length kw, simulatedSERP_get kw⟩

/-- Witness for C2: with the single provider fetch throwing, `fetchSERP "seo"`
returns the simulated fallback, ten entries numbered from 1. -/
theorem claim_C2_fetchSERP_witness :
    (∀ p ∈ ([none] : List (Option ProviderDoc)), providerAttempt p = [])
    ∧ fetchSERP "seo" [none] = simulatedSERP "seo"
    ∧ 0 < (fetchSERP "seo" [none]).length
    ∧ ((fetchSERP "seo" [none]).get ⟨0, by decide⟩).position = 1 :=
  ⟨by decide, (claim_C2_fetchSERP.1 "seo" [none]).2.2 (by decide), by decide,
    (claim_C2_fetchSERP.1 "seo" [none]).2.1 0 (by decide)⟩

/-- Claim C1: For every family of twelve per-check outcomes, the `/api/all`
report keeps all twelve check names in order, and the entry under each name is
determined by that check's own outcome alone: a check whose endpoint threw
contributes its `{error: <msg>, details: <details>}` body, a successful check
contributes its payload (with its `status:'success'` field), and neither is
affected by any other check's outcome — the handler never throws (it is a total
function of the settled outcomes). -/
theorem claim_C1_full_audit :
    ∀ (outcomes : List CheckOutcome), outcomes.length = 12 →
      ((runFullAudit (outcomes.map fun o => .fulfilledData (checkJson o))).map
          Prod.fst = auditKeys)
      ∧ (∀ (i : ℕ) (k : String) (o : CheckOutcome),
          auditKeys[i]? = some k → outcomes[i]? = some o →
          (runFullAudit (outcomes.map fun o => .fulfilledData (checkJson o)))[i]? =
            some (k, checkJson o))
      ∧ (∀ (i : ℕ) (k m d : String),
          auditKeys[i]? = some k → outcomes[i]? = some (.failure m d) →
          (runFullAudit (outcomes.map fun o => .fulfilledData (checkJson o)))[i]? =
            some (k, [("error", m), ("details", d)]))
      ∧ (∀ (i : ℕ) (k : String) (p : Payload),
          auditKeys[i]? = some k → outcomes[i]? = some (.success p) →
          (runFullAudit (outcomes.map fun o => .fulfilledData (checkJson o)))[i]? =
            some (k, p ++ [("status", "success")])) := by
  intro outcomes h
  have hpoint : ∀ (i : ℕ) (k : String) (o : CheckOutcome),
      auditKeys[i]? = some k → outcomes[i]? = some o →
      (runFullAudit (outcomes.map fun o => .fulfilledData (checkJson o)))[i]? =
        some (k, checkJson o) := by
    intro i k o hk ho
    rw [runFullAudit]
    rw [List.getElem?_zip_eq_some]
    refine ⟨hk, ?_⟩
    rw [List.getElem?_map, List.getElem?_map, ho]
    rfl
  refine ⟨?_, hpoint, fun i k m d hk ho => hpoint i k _ hk ho,
    fun i k p hk ho => hpoint i k _ hk ho⟩
  rw [runFullAudit]
  refine List.map_fst_zip _ _ ?_
  rw [List.length_map, List.length_map, h]
  decide

/-- Witness for C1: on `sampleOutcomes` (keywords threw, the rest succeeded)
the keywords entry is its structured error body while the seo entry keeps its
payload. -/
theorem claim_C1_full_audit_witness :
    sampleOutcomes.length = 12
    ∧ auditKeys[5]? = some "keywords"
    ∧ sampleOutcomes[5]? = some (.failure "keywords failed" "boom")
    ∧ auditKeys[0]? = some "seo"
    ∧ sampleOutcomes[0]? = some (.success [("title", "T")])
    ∧ (runFullAudit (sampleOutcomes.map fun o => .fulfilledData (checkJson o)))[5]? =
        some ("keywords", [("error", "keywords failed"), ("details", "boom")])
    ∧ (runFullAudit (sampleOutcomes.map fun o => .fulfilledData (checkJson o)))[0]? =
        some ("seo", [("title", "T"), ("status", "success")]) :=
  ⟨by decide, by decide, by decide, by decide, by decide,
    (claim_C1_full_audit sampleOutcomes (by decide)).2.2.1 5 "keywords"
      "keywords failed" "boom" (by decide) (by decide),
    (claim_C1_full_audit sampleOutcomes (by decide)).2.2.2 0 "seo" [("title", "T")]
      (by decide) (by decide)⟩

/-- Claim C4 counterexample: A fulfilled check's entry keeps its `status` field
(the code copies `calls[i].value.data` verbatim, stripping nothing), and an
incomplete check's marker is the fixed string `{error: 'Check failed'}`, not
`{error: '<Check> Failed'}` naming the check. -/
theorem claim_C4_report_shape_counterexample :
    settledEntry (.fulfilledData [("title", "T"), ("status", "success")])
        ≠ specAuditEntry "seo" (.fulfilledData [("title", "T"), ("status", "success")])
    ∧ settledEntry .rejected ≠ specAuditEntry "seo" .rejected
    ∧ settledEntry (.fulfilledData [("title", "T"), ("status", "success")])
        = [("title", "T"), ("status", "success")]
    ∧ settledEntry .rejected = [("error", "Check failed")] := by
  decide

/-- Claim C4 amended: in the `/api/all` report a successful check's entry is
that check's payload unchanged — its own `status` field included — and a check
that did not complete is substituted by the fixed marker
`{error: "Check failed"}`, the same string for every check. -/
theorem claim_C4_report_shape :
    ∀ (calls : List SettledCall) (i : ℕ) (k : String), auditKeys[i]? = some k →
      (∀ d : Payload, calls[i]? = some (.fulfilledData d) →
        (runFullAudit calls)[i]? = some (k, d))
      ∧ (calls[i]? = some .rejected →
          (runFullAudit calls)[i]? = some (k, [("error", "Check failed")]))
      ∧ (calls[i]? = some .fulfilledNoData →
          (runFullAudit calls)[i]? = some (k, [("error", "Check failed")])) := by
  intro calls i k hk
  have hpoint : ∀ c : SettledCall, calls[i]? = some c →
      (runFullAudit calls)[i]? = some (k, settledEntry c) := by
    intro c hc
    rw [runFullAudit]
    rw [List.getElem?_zip_eq_some]
    refine ⟨hk, ?_⟩
    rw [List.getElem?_map, hc]
    rfl
  exact ⟨fun d hd => hpoint _ hd, fun hc => hpoint _ hc, fun hc => hpoint _ hc⟩

/-- Witness for C4: at index 0 (`seo`), a fulfilled payload passes through with
its `status` field, and a rejected call yields the fixed marker. -/
theorem claim_C4_report_shape_witness :
    auditKeys[0]? = some "seo"
    ∧ ([SettledCall.fulfilledData [("title", "T"), ("status", "success")]])[0]? =
        some (.fulfilledData [("title", "T"), ("status", "success")])
    ∧ (runFullAudit [.fulfilledData [("title", "T"), ("status", "success")]])[0]? =
        some ("seo", [("title", "T"), ("status", "success")])
    ∧ (runFullAudit [.rejected])[0]? = some ("seo", [("error", "Check failed")]) :=
  ⟨by decide, by decide,
    (claim_C4_report_shape [.fulfilledData [("title", "T"), ("status", "success")]]
      0 "seo" (by decide)).1 _ (by decide),
    (claim_C4_report_shape [.rejected] 0 "seo" (by decide)).2.1 (by decide)⟩

/-- A reference with a parsed scheme starts with a letter. -/
theorem schemeOf_head {l : List Char} {p : List Char × List Char}
    (h : schemeOf l = some p) : ∃ c t, l = c :: t ∧ c.isAlpha := by
  match l with
  | [] => simp [schemeOf] at h
  | c :: t =>
    refine ⟨c, t, rfl, ?_⟩
    by_contra hc
    rw [schemeOf, if_neg (by simpa using hc)] at h
    exact Option.noConfusion h

/-- Rebuilding a string from its character list is the identity. -/
theorem mk_toList (s : String) : String.mk s.toList = s := by
  obtain ⟨l⟩ := s
  rfl

/-- Claim C5 counterexample: the endpoint `/api/broken-links` has no `data:`/`javascript:`
rejection: both resolve to themselves, enter the candidate set and are probed
(the probe rejects and they land in the broken list).  And a reference that
`new URL` cannot parse (here `file://[`, an invalid host) is not dropped
silently: the cheerio loop's exception reaches the route handler, the whole
check answers `{error: 'Failed to check'}` and the remaining references (here
`/a`) are never processed. -/
theorem claim_C5_reference_exclusion_counterexample :
    collectLinks "http://x" ["javascript:void(0)"] = .ok ["javascript:void(0)"]
    ∧ collectLinks "http://x" ["data:text/plain,hi"] = .ok ["data:text/plain,hi"]
    ∧ (brokenLinksCheck "http://x" ["javascript:void(0)"] fun _ => .netError) =
        .ok ⟨1, [("javascript:void(0)", .timeoutErr)]⟩
    ∧ collectLinks "http://x" ["file://[", "/a"] = .error "Failed to check" :=
  ⟨rfl, rfl, rfl, rfl⟩

/-- The only error `collectLinks` ever produces is `'Failed to check'`. -/
theorem collectLinks_error_eq (base : String) :
    ∀ (hrefs : List String) (e : String),
      collectLinks base hrefs = .error e → e = "Failed to check" := by
  intro hrefs
  induction hrefs with
  | nil => exact fun e h => Except.noConfusion h
  | cons h1 t ih =>
    intro e h
    rw [collectLinks] at h
    split at h
    · exact ih e h
    · rcases hres : resolveRef h1 base with - | u <;> rw [hres] at h
      · exact ((Except.error.injEq _ _).mp h).symm
      · rcases hrec : collectLinks base t with e2 | ls <;> rw [hrec] at h
        · simp only [Except.map] at h
          have he2 : e2 = e := (Except.error.injEq _ _).mp h
          rw [← he2]
          exact ih e2 hrec
        · simp only [Except.map] at h
          exact Except.noConfusion h

/-- The collection `collectLinks` fails exactly when some nonempty reference is
unresolvable. -/
theorem collectLinks_error_iff (base : String) (hrefs : List String) :
    collectLinks base hrefs = .error "Failed to check" ↔
      ∃ r ∈ hrefs, r ≠ "" ∧ resolveRef r base = none := by
  induction hrefs with
  | nil =>
    constructor
    · intro h
      exact Except.noConfusion h
    · rintro ⟨r, hr, -⟩
      exact absurd hr (List.not_mem_nil r)
  | cons h t ih =>
    constructor
    · intro hx
      rw [collectLinks] at hx
      split at hx
      · obtain ⟨r, hr, hne, hres⟩ := ih.mp hx
        exact ⟨r, List.mem_cons_of_mem h hr, hne, hres⟩
      · rcases hres : resolveRef h base with - | u <;> rw [hres] at hx
        · exact ⟨h, List.mem_cons_self h t, by assumption, hres⟩
        · rcases hrec : collectLinks base t with e2 | ls <;> rw [hrec] at hx
          · obtain ⟨r, hr, hne, hres2⟩ :=
              ih.mp (by rw [hrec, collectLinks_error_eq base t e2 hrec])
            exact ⟨r, List.mem_cons_of_mem h hr, hne, hres2⟩
          · simp only [Except.map] at hx
            exact Except.noConfusion hx
    · rintro ⟨r, hr, hne, hres⟩
      rw [collectLinks]
      by_cases hempty : h = ""
      · rw [if_pos hempty]
        rcases List.mem_cons.mp hr with rfl | hr2
        · exact absurd hempty hne
        · exact ih.mpr ⟨r, hr2, hne, hres⟩
      · rw [if_neg hempty]
        rcases hresh : resolveRef h base with - | u
        · rfl
        · have hmem : r ∈ t := by
            rcases List.mem_cons.mp hr with rfl | hr2
            · rw [hresh] at hres
              exact Option.noConfusion hres
            · exact hr2
          have := ih.mpr ⟨r, hmem, hne, hres⟩
          rw [this]
          rfl

/-- Claim C5 amended: References with a non-special scheme — `data:` and
`javascript:` among them — are never rejected: they resolve to themselves and
join the candidate set like any other reference; and the collection fails with
`{error: 'Failed to check'}` exactly when some nonempty reference cannot be
resolved, in which case no reference of the page survives (the malformed
reference aborts the processing of the rest). -/
theorem claim_C5_reference_exclusion :
    (∀ (ref base : String) (s rest : List Char),
      schemeOf ref.toList = some (s, rest) → s.map Char.toLower ∉ specialSchemes →
      resolveRef ref base = some ref)
    ∧ (∀ (base : String) (hrefs : List String),
        collectLinks base hrefs = .error "Failed to check" ↔
          ∃ r ∈ hrefs, r ≠ "" ∧ resolveRef r base = none) := by
  refine ⟨?_, collectLinks_error_iff⟩
  intro ref base s rest hscheme hnot
  obtain ⟨c, t, hct, halpha⟩ := schemeOf_head hscheme
  have hc : c ≠ '/' := by
    intro hc
    rw [hc] at halpha
    exact Bool.noConfusion halpha
  rw [resolveRef]
  have hnoslash : ¬"//".toList.isPrefixOf ref.toList := by
    rw [hct]
    intro hpre
    have h2 : (('/' == c) && List.isPrefixOf ['/'] t) = true := hpre
    have h3 : ('/' == c) = true := by
      by_cases hq : ('/' == c) = true
      · exact hq
      · rw [Bool.not_eq_true] at hq
        rw [hq, Bool.false_and] at h2
        exact Bool.noConfusion h2
    exact hc (beq_iff_eq.mp h3).symm
  rw [if_neg hnoslash]
  by_cases hhttp : "http".toList.isPrefixOf ref.toList
  · rw [if_pos hhttp]
  · rw [if_neg hhttp]
    have hres : jsUrlResolve ref.toList base.toList = some ref.toList := by
      rw [jsUrlResolve, hscheme]
      exact if_neg hnot
    rw [hres]
    exact congrArg some (mk_toList ref)

/-- Witness for C5: `javascript:void(0)` has a non-special scheme and resolves
to itself, and the page `["file://[", "/a"]` contains an unresolvable
reference, so its whole check fails. -/
theorem claim_C5_reference_exclusion_witness :
    schemeOf "javascript:void(0)".toList = some ("javascript".toList, "void(0)".toList)
    ∧ "javascript".toList.map Char.toLower ∉ specialSchemes
    ∧ resolveRef "javascript:void(0)" "http://x" = some "javascript:void(0)"
    ∧ (∃ r ∈ ["file://[", "/a"], r ≠ "" ∧ resolveRef r "http://x" = none) :=
  ⟨by decide, by decide,
    claim_C5_reference_exclusion.1 "javascript:void(0)" "http://x" "javascript".toList
      "void(0)".toList (by decide) (by decide),
    (claim_C5_reference_exclusion.2 "http://x" ["file://[", "/a"]).mp rfl⟩

/-- When `classifyProbe` records a numeric status. -/
theorem classifyProbe_eq_code (o : ProbeOutcome) (s : ℕ) :
    classifyProbe o = some (.code s) ↔ o = .httpError s ∧ 400 ≤ s := by
  cases o with
  | ok => simp [classifyProbe]
  | netError => simp [classifyProbe]
  | httpError s2 =>
    by_cases h4 : 400 ≤ s2
    · simp only [classifyProbe, if_pos h4, Option.some.injEq, BrokenStatus.code.injEq,
        ProbeOutcome.httpError.injEq]
      constructor
      · rintro rfl
        exact ⟨rfl, h4⟩
      · rintro ⟨rfl, -⟩
        rfl
    · simp only [classifyProbe, if_neg h4, Option.some.injEq, ProbeOutcome.httpError.injEq]
      constructor
      · intro h
        exact absurd h (by simp)
      · rintro ⟨rfl, h⟩
        exact absurd h h4

/-- When `classifyProbe` records the `'Timeout/Err'` marker. -/
theorem classifyProbe_eq_timeout (o : ProbeOutcome) :
    classifyProbe o = some .timeoutErr ↔
      o = .netError ∨ ∃ s, s < 400 ∧ o = .httpError s := by
  cases o with
  | ok => simp [classifyProbe]
  | netError => simp [classifyProbe]
  | httpError s2 =>
    by_cases h4 : 400 ≤ s2
    · simp only [classifyProbe, if_pos h4, Option.some.injEq, ProbeOutcome.httpError.injEq]
      constructor
      · intro h
        exact absurd h (by simp)
      · rintro (h | ⟨s, hs, rfl⟩)
        · exact ProbeOutcome.noConfusion h
        · omega
    · simp only [classifyProbe, if_neg h4, Option.some.injEq, ProbeOutcome.httpError.injEq]
      constructor
      · intro _
        exact .inr ⟨s2, by omega, rfl⟩
      · intro _
        trivial

/-- Membership in the `broken` array, through the probe classification. -/
theorem brokenList_mem (probes : List (String × ProbeOutcome)) (l : String)
    (st : BrokenStatus) :
    (l, st) ∈ brokenList probes ↔ ∃ o, (l, o) ∈ probes ∧ classifyProbe o = some st := by
  rw [brokenList, List.mem_filterMap]
  constructor
  · rintro ⟨⟨l2, o⟩, hm, hf⟩
    rcases hco : classifyProbe o with - | st2 <;> rw [hco] at hf
    · exact Option.noConfusion hf
    · have hf2 : (l2, st2) = (l, st) := by
        simpa using hf
      rw [Prod.mk.injEq] at hf2
      obtain ⟨rfl, rfl⟩ := hf2
      exact ⟨o, hm, hco⟩
  · rintro ⟨o, hm, hco⟩
    refine ⟨(l, o), hm, ?_⟩
    rw [hco]
    rfl

/-- Claim C6: A probed URL appears in the broken list with a numeric status
exactly when its probe was rejected with a response of status ≥ 400; it
appears with the `'Timeout/Err'` marker exactly when its probe failed without
such a response (no response at all, or a rejected response with status
< 400); a URL all of whose probes resolved contributes no broken entry; and
each entry depends only on that URL's own probe outcome (each probe's failure
is caught in its own callback), so no probe aborts the others. -/
theorem claim_C6_probe_classification :
    ∀ probes : List (String × ProbeOutcome),
      (∀ (l : String) (s : ℕ),
        (l, BrokenStatus.code s) ∈ brokenList probes ↔
          400 ≤ s ∧ (l, ProbeOutcome.httpError s) ∈ probes)
      ∧ (∀ l : String,
          (l, BrokenStatus.timeoutErr) ∈ brokenList probes ↔
            ((l, ProbeOutcome.netError) ∈ probes
              ∨ ∃ s, s < 400 ∧ (l, ProbeOutcome.httpError s) ∈ probes))
      ∧ (∀ l : String, (∀ o, (l, o) ∈ probes → o = .ok) →
          ∀ st, (l, st) ∉ brokenList probes) := by
  intro probes
  refine ⟨fun l s => ?_, fun l => ?_, fun l hall st hmem => ?_⟩
  · rw [brokenList_mem]
    constructor
    · rintro ⟨o, hm, hco⟩
      obtain ⟨rfl, h4⟩ := (classifyProbe_eq_code o s).mp hco
      exact ⟨h4, hm⟩
    · rintro ⟨h4, hm⟩
      exact ⟨_, hm, (classifyProbe_eq_code _ s).mpr ⟨rfl, h4⟩⟩
  · rw [brokenList_mem]
    constructor
    · rintro ⟨o, hm, hco⟩
      rcases (classifyProbe_eq_timeout o).mp hco with rfl | ⟨s, hs, rfl⟩
      · exact .inl hm
      · exact .inr ⟨s, hs, hm⟩
    · rintro (hm | ⟨s, hs, hm⟩)
      · exact ⟨_, hm, (classifyProbe_eq_timeout _).mpr (.inl rfl)⟩
      · exact ⟨_, hm, (classifyProbe_eq_timeout _).mpr (.inr ⟨s, hs, rfl⟩)⟩
  · obtain ⟨o, hm, hco⟩ := (brokenList_mem probes l st).mp hmem
    rw [hall o hm] at hco
    exact Option.noConfusion hco

/-- Witness for C6: a 404 response lands the link in the broken list with its
numeric status. -/
theorem claim_C6_probe_classification_witness :
    (400 : ℕ) ≤ 404
    ∧ ("http://x/a", ProbeOutcome.httpError 404) ∈
        [("http://x/a", ProbeOutcome.httpError 404)]
    ∧ ("http://x/a", BrokenStatus.code 404) ∈
        brokenList [("http://x/a", ProbeOutcome.httpError 404)] :=
  ⟨by decide, by decide,
    ((claim_C6_probe_classification _).1 "http://x/a" 404).mpr ⟨by decide, by decide⟩⟩

/-- The deduplication `jsSetDedup` produces a duplicate-free list whose elements avoid the seen
set. -/
theorem jsSetDedupAux_spec (l : List String) :
    ∀ seen : List String,
      (jsSetDedupAux seen l).Nodup ∧ ∀ x ∈ jsSetDedupAux seen l, x ∉ seen := by
  induction l with
  | nil =>
    intro seen
    exact ⟨List.nodup_nil, fun x hx => absurd hx (List.not_mem_nil x)⟩
  | cons x xs ih =>
    intro seen
    by_cases hx : x ∈ seen
    · rw [jsSetDedupAux, if_pos hx]
      exact ih seen
    · rw [jsSetDedupAux, if_neg hx]
      obtain ⟨hnodup, hmem⟩ := ih (seen ++ [x])
      refine ⟨List.Nodup.cons (fun hc => ?_) hnodup, ?_⟩
      · exact hmem x hc (by simp)
      · intro y hy
        rcases List.mem_cons.mp hy with rfl | hy2
        · exact hx
        · intro hyseen
          exact hmem y hy2 (List.mem_append_left _ hyseen)

/-- Claim C7: Whenever the reference collection succeeds, the candidate list
probed by `/api/broken-links` contains no duplicate resolved URL, has at most
40 elements, and the reported `totalChecked` is exactly its size; on the
references `["/a", "/a", "http://x/a"]` against base `http://x` the
deduplicated resolved set is exactly `["http://x/a"]` (both forms resolve
identically). -/
theorem claim_C7_dedup_cap :
    (∀ (base : String) (hrefs ls : List String),
      candidateLinks base hrefs = .ok ls →
        ls.Nodup ∧ ls.length ≤ 40
        ∧ ∀ probe : String → ProbeOutcome,
            brokenLinksCheck base hrefs probe =
              .ok ⟨ls.length, brokenList (ls.map fun l => (l, probe l))⟩)
    ∧ candidateLinks "http://x" ["/a", "/a", "http://x/a"] = .ok ["http://x/a"] := by
  constructor
  · intro base hrefs ls hok
    have hbody : ∃ ls0, collectLinks base hrefs = .ok ls0
        ∧ ls = (jsSetDedup ls0).take 40 := by
      rw [candidateLinks] at hok
      rcases hcol : collectLinks base hrefs with e | ls0 <;> rw [hcol] at hok
      · simp only [Except.map] at hok
        exact Except.noConfusion hok
      · simp only [Except.map] at hok
        exact ⟨ls0, rfl, ((Except.ok.injEq _ _).mp hok).symm⟩
    obtain ⟨ls0, hcol, hls⟩ := hbody
    refine ⟨?_, ?_, fun probe => ?_⟩
    · rw [hls]
      exact List.Nodup.sublist (List.take_sublist 40 _) (jsSetDedupAux_spec ls0 []).1
    · rw [hls]
      exact List.length_take_le 40 _
    · rw [brokenLinksCheck, hok]
      rfl
  · rfl

/-- Witness for C7: the concrete dedup example, its nodup/cap facts, and its
report with all probes resolving. -/
theorem claim_C7_dedup_cap_witness :
    candidateLinks "http://x" ["/a", "/a", "http://x/a"] = .ok ["http://x/a"]
    ∧ (["http://x/a"] : List String).Nodup
    ∧ (1 : ℕ) ≤ 40
    ∧ brokenLinksCheck "http://x" ["/a", "/a", "http://x/a"] (fun _ => .ok) =
        .ok ⟨1, []⟩ :=
  ⟨rfl,
    (claim_C7_dedup_cap.1 "http://x" ["/a", "/a", "http://x/a"] ["http://x/a"] rfl).1,
    by decide,
    (claim_C7_dedup_cap.1 "http://x" ["/a", "/a", "http://x/a"] ["http://x/a"] rfl).2.2
      fun _ => .ok⟩

/-- The key set after a `bump`: unchanged when the key is present, extended by
it otherwise. -/
theorem bump_keys (w : List Char) :
    ∀ tbl : List (List Char × Nat),
      (bump tbl w).map Prod.fst =
        if w ∈ tbl.map Prod.fst then tbl.map Prod.fst else tbl.map Prod.fst ++ [w] := by
  intro tbl
  induction tbl with
  | nil => simp [bump]
  | cons e rest ih =>
    obtain ⟨k0, n0⟩ := e
    by_cases hk : k0 = w
    · rw [bump, if_pos hk]
      rw [List.map_cons, List.map_cons]
      rw [if_pos (by simp [hk])]
    · rw [bump, if_neg hk]
      rw [List.map_cons, List.map_cons, ih]
      by_cases hw : w ∈ rest.map Prod.fst
      · rw [if_pos hw, if_pos (by simp [hw])]
      · rw [if_neg hw, if_neg (by
          simp only [List.mem_cons]
          rintro (h | h)
          · exact hk h.symm
          · exact hw h)]
        rw [List.cons_append]

/-- Inversion of one `bump`: how an entry of `bump tbl w` relates to `tbl`
(assuming the table's keys are distinct, which `freqTable` maintains). -/
theorem bump_mem_inv (w k : List Char) (m : ℕ) :
    ∀ tbl : List (List Char × Nat), (tbl.map Prod.fst).Nodup →
      (k, m) ∈ bump tbl w →
      (k = w ∧ ((∃ m0, (k, m0) ∈ tbl ∧ m = m0 + 1) ∨ (k ∉ tbl.map Prod.fst ∧ m = 1)))
      ∨ (k ≠ w ∧ (k, m) ∈ tbl) := by
  intro tbl
  induction tbl with
  | nil =>
    intro _ hmem
    rw [bump] at hmem
    rcases List.mem_cons.mp hmem with he | he
    · rw [Prod.mk.injEq] at he
      exact .inl ⟨he.1, .inr ⟨List.not_mem_nil k, he.2⟩⟩
    · exact absurd he (List.not_mem_nil _)
  | cons e rest ih =>
    obtain ⟨k0, n0⟩ := e
    intro hnd hmem
    rw [List.map_cons, List.nodup_cons] at hnd
    by_cases hk : k0 = w
    · rw [bump, if_pos hk] at hmem
      rcases List.mem_cons.mp hmem with he | he
      · rw [Prod.mk.injEq] at he
        refine .inl ⟨he.1.symm ▸ hk ▸ rfl, .inl ⟨n0, ?_, he.2⟩⟩
        rw [he.1]
        exact List.mem_cons_self _ _
      · have hmem2 : k ∈ rest.map Prod.fst := List.mem_map_of_mem Prod.fst he
        have hkne : k ≠ w := by
          rintro rfl
          exact hnd.1 (hk.symm ▸ hmem2)
        exact .inr ⟨hkne, List.mem_cons_of_mem _ he⟩
    · rw [bump, if_neg hk] at hmem
      rcases List.mem_cons.mp hmem with he | he
      · rw [Prod.mk.injEq] at he
        refine .inr ⟨?_, ?_⟩
        · rw [he.1]
          exact hk
        · rw [he.1, he.2]
          exact List.mem_cons_self _ _
      · rcases ih hnd.2 he with ⟨hkw, hin⟩ | ⟨hkw, hin⟩
        · refine .inl ⟨hkw, ?_⟩
          rcases hin with ⟨m0, hm0, hm⟩ | ⟨hnin, hm⟩
          · exact .inl ⟨m0, List.mem_cons_of_mem _ hm0, hm⟩
          · refine .inr ⟨?_, hm⟩
            rw [List.map_cons, List.mem_cons]
            rintro (h | h)
            · exact hk (h.symm.trans hkw)
            · exact hnin h
        · exact .inr ⟨hkw, List.mem_cons_of_mem _ hin⟩

/-- The frequency fold keeps keys distinct, and every entry `(k, n)` it
produces from table `tbl` either extends a `tbl` entry by `k`'s count in the
remaining words, or is a fresh key of the words with exactly its count. -/
theorem foldl_bump_spec (ws : List (List Char)) :
    ∀ tbl : List (List Char × Nat), (tbl.map Prod.fst).Nodup →
      ((ws.foldl bump tbl).map Prod.fst).Nodup
      ∧ ∀ k n, (k, n) ∈ ws.foldl bump tbl →
          (∃ m, (k, m) ∈ tbl ∧ n = m + ws.count k)
          ∨ (k ∉ tbl.map Prod.fst ∧ k ∈ ws ∧ n = ws.count k) := by
  induction ws with
  | nil =>
    intro tbl hnd
    refine ⟨hnd, fun k n hmem => .inl ⟨n, hmem, ?_⟩⟩
    rw [List.count_nil]
    omega
  | cons w ws2 ih =>
    intro tbl hnd
    have hndb : ((bump tbl w).map Prod.fst).Nodup := by
      rw [bump_keys]
      split
      · exact hnd
      · rename_i hw
        exact List.nodup_append.mpr
          ⟨hnd, List.nodup_singleton w, fun a ha hb => hw ((List.mem_singleton.mp hb) ▸ ha)⟩
    obtain ⟨hnd2, hspec⟩ := ih (bump tbl w) hndb
    rw [List.foldl_cons]
    refine ⟨hnd2, fun k n hmem => ?_⟩
    rcases hspec k n hmem with ⟨m, hm, hn⟩ | ⟨hnin, hin, hn⟩
    · rcases bump_mem_inv w k m tbl hnd hm with ⟨rfl, hcase⟩ | ⟨hkw, hmem0⟩
      · rcases hcase with ⟨m0, hm0, hmm⟩ | ⟨hnin0, hm1⟩
        · refine .inl ⟨m0, hm0, ?_⟩
          rw [hn, hmm, List.count_cons_self]
          omega
        · refine .inr ⟨hnin0, List.mem_cons_self _ _, ?_⟩
          rw [hn, hm1, List.count_cons_self]
          omega
      · refine .inl ⟨m, hmem0, ?_⟩
        rw [hn, List.count_cons_of_ne hkw]
    · have hkeys := bump_keys w tbl
      have hknotbl : k ∉ tbl.map Prod.fst := by
        intro hc
        apply hnin
        rw [hkeys]
        split
        · exact hc
        · exact List.mem_append_left _ hc
      have hkw : k ≠ w := by
        rintro rfl
        apply hnin
        rw [hkeys]
        split
        · rename_i hw
          exact hw
        · exact List.mem_append_right _ (List.mem_singleton.mpr rfl)
      refine .inr ⟨hknotbl, List.mem_cons_of_mem _ hin, ?_⟩
      rw [hn, List.count_cons_of_ne hkw]

/-- Each entry of the frequency table records exactly its key's occurrence
count among the tokens, and the key does occur. -/
theorem freqTable_mem (ws : List (List Char)) (k : List Char) (n : ℕ)
    (h : (k, n) ∈ freqTable ws) : n = ws.count k ∧ k ∈ ws := by
  obtain ⟨-, hspec⟩ := foldl_bump_spec ws [] (by simp)
  rcases hspec k n h with ⟨m, hm, -⟩ | ⟨-, hin, hn⟩
  · exact absurd hm (List.not_mem_nil _)
  · exact ⟨hn, hin⟩

/-- Membership through `insertByCount`. -/
theorem insertByCount_mem (x y : List Char × Nat) :
    ∀ l, y ∈ insertByCount x l ↔ y = x ∨ y ∈ l := by
  intro l
  induction l with
  | nil => simp [insertByCount]
  | cons z zs ih =>
    rw [insertByCount]
    split
    · exact List.mem_cons
    · rw [List.mem_cons, ih, List.mem_cons]
      tauto

/-- Membership through `insertAscNum`. -/
theorem insertAscNum_mem (x y : List Char × Nat) :
    ∀ l, y ∈ insertAscNum x l ↔ y = x ∨ y ∈ l := by
  intro l
  induction l with
  | nil => simp [insertAscNum]
  | cons z zs ih =>
    rw [insertAscNum]
    split
    · rw [List.mem_cons, ih, List.mem_cons]
      tauto
    · exact List.mem_cons

/-- Membership through the stable descending sort. -/
theorem sortByCountDesc_foldl_mem (y : List Char × Nat) :
    ∀ (l acc : List (List Char × Nat)),
      y ∈ l.foldl (fun acc x => insertByCount x acc) acc ↔ y ∈ acc ∨ y ∈ l := by
  intro l
  induction l with
  | nil =>
    intro acc
    simp
  | cons x xs ih =>
    intro acc
    rw [List.foldl_cons, ih, insertByCount_mem, List.mem_cons]
    tauto

/-- Membership through the ascending numeric sort. -/
theorem insertAscNum_foldl_mem (y : List Char × Nat) :
    ∀ (l acc : List (List Char × Nat)),
      y ∈ l.foldl (fun acc x => insertAscNum x acc) acc ↔ y ∈ acc ∨ y ∈ l := by
  intro l
  induction l with
  | nil =>
    intro acc
    simp
  | cons x xs ih =>
    intro acc
    rw [List.foldl_cons, ih, insertAscNum_mem, List.mem_cons]
    tauto

/-- The `Object.entries` enumeration only reorders the table. -/
theorem jsEntries_mem (tbl : List (List Char × Nat)) (e : List Char × Nat)
    (h : e ∈ jsEntries tbl) : e ∈ tbl := by
  rw [jsEntries] at h
  rcases List.mem_append.mp h with h1 | h2
  · rcases (insertAscNum_foldl_mem e _ []).mp h1 with h0 | h3
    · exact absurd h0 (List.not_mem_nil e)
    · exact (List.mem_filter.mp h3).1
  · exact (List.mem_filter.mp h2).1

/-- The insertion `insertByCount` preserves descending order by count. -/
theorem insertByCount_sorted (x : List Char × Nat) :
    ∀ l, List.Pairwise (fun a b => b.2 ≤ a.2) l →
      List.Pairwise (fun a b => b.2 ≤ a.2) (insertByCount x l) := by
  intro l
  induction l with
  | nil =>
    intro _
    exact List.pairwise_singleton _ _
  | cons z zs ih =>
    intro hp
    rw [List.pairwise_cons] at hp
    obtain ⟨hz, hzs⟩ := hp
    rw [insertByCount]
    split
    · rename_i hlt
      rw [List.pairwise_cons]
      refine ⟨?_, List.pairwise_cons.mpr ⟨hz, hzs⟩⟩
      intro b hb
      rcases List.mem_cons.mp hb with rfl | hb2
      · exact Nat.le_of_lt hlt
      · exact Nat.le_trans (hz b hb2) (Nat.le_of_lt hlt)
    · rename_i hge
      rw [List.pairwise_cons]
      refine ⟨?_, ih hzs⟩
      intro b hb
      rcases (insertByCount_mem x b zs).mp hb with rfl | hb2
      · exact Nat.le_of_not_lt hge
      · exact hz b hb2

/-- The stable sort by descending count is sorted. -/
theorem sortByCountDesc_sorted (l : List (List Char × Nat)) :
    List.Pairwise (fun a b => b.2 ≤ a.2) (sortByCountDesc l) := by
  rw [sortByCountDesc]
  have : ∀ (l2 acc : List (List Char × Nat)),
      List.Pairwise (fun a b => b.2 ≤ a.2) acc →
      List.Pairwise (fun a b => b.2 ≤ a.2)
        (l2.foldl (fun acc x => insertByCount x acc) acc) := by
    intro l2
    induction l2 with
    | nil => exact fun acc h => h
    | cons x xs ih =>
      intro acc h
      rw [List.foldl_cons]
      exact ih _ (insertByCount_sorted x acc h)
  exact this l [] List.Pairwise.nil

/-- A token kept by the `/api/keywords` pipeline is longer than 3 characters
and made of `[a-z0-9]` characters only. -/
theorem keywordTokens_shape (text : String) (w : List Char)
    (h : w ∈ keywordTokens text) : 3 < w.length ∧ ∀ c ∈ w, keepAlnum c := by
  rw [keywordTokens] at h
  obtain ⟨hmem, hpred⟩ := List.mem_filter.mp h
  have hp2 : w ≠ [] ∧ 3 < w.length := by
    simpa using hpred
  obtain ⟨w0, hw0, rfl⟩ := List.mem_map.mp hmem
  exact ⟨hp2.2, fun c hc => List.of_mem_filter hc⟩

/-- Claim C8 counterexample: Extraction on `"cat cat dog dog dog bird"` yields
`[("bird", 1)]`, not the claimed `[("dog",3),("cat",2),("bird",1)]`: the code
keeps only tokens of length > 3, discarding `cat` and `dog` (there is no
configurable minimum length).  Moreover ties are not broken purely by first
occurrence: purely numeric tokens are array-index keys, which
`Object.entries` enumerates first in ascending numeric order, as on
`"abcd abcd 9999 1111"`. -/
theorem claim_C8_keywords_counterexample :
    jsKeywords "cat cat dog dog dog bird" = [("bird", 1)]
    ∧ jsKeywords "cat cat dog dog dog bird" ≠ [("dog", 3), ("cat", 2), ("bird", 1)]
    ∧ jsKeywords "abcd abcd 9999 1111" = [("abcd", 2), ("1111", 1), ("9999", 1)]
    ∧ jsKeywords "abcd abcd 9999 1111" ≠ [("abcd", 2), ("9999", 1), ("1111", 1)] := by
  decide

/-- Claim C8 amended: the endpoint `/api/keywords` lowercases the text, strips each token
to `[a-z0-9]`, and discards tokens of 3 characters or fewer; every returned
entry's frequency is ≥ 1 and equals its token's occurrence count; the entries
are ordered by non-increasing frequency (the sort is stable over the
frequency object's enumeration order, which lists purely numeric array-index
keys first in ascending order and the remaining keys in insertion order);
on `"cat cat dog dog dog bird"` the result is `[("bird", 1)]`, and on
`"abcd abcd 9999 1111"` the tied numeric keys come out ascending. -/
theorem claim_C8_keywords :
    (∀ (text t : String) (n : ℕ), (t, n) ∈ jsKeywords text →
      1 ≤ n ∧ n = (keywordTokens text).count t.toList
      ∧ 3 < t.toList.length ∧ ∀ c ∈ t.toList, keepAlnum c)
    ∧ (∀ text : String, List.Pairwise (fun a b => b.2 ≤ a.2) (jsKeywords text))
    ∧ jsKeywords "cat cat dog dog dog bird" = [("bird", 1)]
    ∧ jsKeywords "abcd abcd 9999 1111" = [("abcd", 2), ("1111", 1), ("9999", 1)] := by
  refine ⟨?_, ?_, by decide, by decide⟩
  · intro text t n hmem
    rw [jsKeywords] at hmem
    obtain ⟨e, he, heq⟩ := List.mem_map.mp hmem
    have he2 : e ∈ sortByCountDesc (jsEntries (freqTable (keywordTokens text))) :=
      List.mem_of_mem_take he
    have he3 : e ∈ jsEntries (freqTable (keywordTokens text)) := by
      rw [sortByCountDesc] at he2
      rcases (sortByCountDesc_foldl_mem e _ []).mp he2 with h0 | h3
      · exact absurd h0 (List.not_mem_nil e)
      · exact h3
    have he4 : e ∈ freqTable (keywordTokens text) := jsEntries_mem _ e he3
    rw [Prod.mk.injEq] at heq
    have htl : t.toList = e.1 := by
      rw [← heq.1]
      rfl
    obtain ⟨hcount, hintok⟩ := freqTable_mem (keywordTokens text) e.1 e.2 he4
    obtain ⟨hlen, hchars⟩ := keywordTokens_shape text e.1 hintok
    rw [htl, ← heq.2]
    refine ⟨?_, hcount, hlen, hchars⟩
    rw [hcount]
    exact List.count_pos_iff.mpr hintok
  · intro text
    rw [jsKeywords]
    rw [List.pairwise_map]
    exact List.Pairwise.sublist (List.take_sublist 50 _)
      (sortByCountDesc_sorted (jsEntries (freqTable (keywordTokens text))))

/-- Witness for C8: the entry `("bird", 1)` of the example text satisfies all
the per-entry properties. -/
theorem claim_C8_keywords_witness :
    ("bird", 1) ∈ jsKeywords "cat cat dog dog dog bird"
    ∧ 1 ≤ 1 ∧ 1 = (keywordTokens "cat cat dog dog dog bird").count "bird".toList
    ∧ 3 < "bird".toList.length ∧ ∀ c ∈ "bird".toList, keepAlnum c :=
  ⟨by decide,
    (claim_C8_keywords.1 "cat cat dog dog dog bird" "bird" 1 (by decide)).1,
    (claim_C8_keywords.1 "cat cat dog dog dog bird" "bird" 1 (by decide)).2.1,
    (claim_C8_keywords.1 "cat cat dog dog dog bird" "bird" 1 (by decide)).2.2.1,
    (claim_C8_keywords.1 "cat cat dog dog dog bird" "bird" 1 (by decide)).2.2.2⟩

end SeoAnalyzer
